import Mathlib

/-!
Verification of the admission-and-resource-control layer of the repository:
the load-balancing middleware (src/server/middleware/load-balancer.ts), the
background job queue (src/lib/jobs/queue.ts) and the enhanced database
connection pool (EnhancedConnectionPool). Each definition below is a shallow
embedding of the corresponding source function; machine arithmetic is modelled
with Nat (the JavaScript values involved are small non-negative integers),
JavaScript exceptions with Except, and the single-threaded interleaving
semantics with explicit state-passing step functions.
-/

namespace LoadBalancer

/-- Embedding of the QueuedRequest entries of LoadBalancer.requestQueue.
Only the two fields the queue discipline reads are kept: priority (computed
by getRequestPriority) and timestamp (Date.now at enqueue, which is the
arrival time; arrival order is modelled by strictly increasing timestamps). -/
structure QueuedRequest where
  priority : Nat
  timestamp : Nat
deriving DecidableEq, Repr

/-- Comparator of the sort in queueRequest: the JavaScript comparator
(a, b) =&gt; b.priority - a.priority orders by priority descending, so a may
stay before b exactly when b.priority is at most a.priority. -/
def prioGE (a b : QueuedRequest) : Prop := b.priority ≤ a.priority

instance : DecidableRel prioGE :=
  fun a b => inferInstanceAs (Decidable (b.priority ≤ a.priority))

/-- Embedding of this.requestQueue.sort((a, b) =&gt; b.priority - a.priority).
Array.prototype.sort is stable (ECMAScript 2019), so it is modelled by a
stable sorting algorithm with the same comparator; insertionSort is stable. -/
def sortQueue (l : List QueuedRequest) : List QueuedRequest :=
  l.insertionSort prioGE

/-- Embedding of the enqueue part of LoadBalancer.queueRequest (lines
105-106): push the new request at the end, then sort the queue by priority
descending with the stable sort. -/
def enqueue (q : List QueuedRequest) (r : QueuedRequest) : List QueuedRequest :=
  sortQueue (q ++ [r])

/-- Strict ordering the spec asks of the queue: priority descending with
ties broken by arrival (timestamp) ascending. -/
def lexBefore (a b : QueuedRequest) : Prop :=
  b.priority < a.priority ∨ (a.priority = b.priority ∧ a.timestamp < b.timestamp)

instance : DecidableRel lexBefore := fun a b =>
  inferInstanceAs (Decidable (b.priority < a.priority ∨
    (a.priority = b.priority ∧ a.timestamp < b.timestamp)))

/-- The queue invariant: consecutive entries are ordered by priority
descending, ties by arrival ascending. -/
def queueOrdered (q : List QueuedRequest) : Prop := q.Pairwise lexBefore

instance (q : List QueuedRequest) : Decidable (queueOrdered q) :=
  inferInstanceAs (Decidable (q.Pairwise lexBefore))

/-- Helper describing where the stable sort of queueRequest places a newly
pushed request inside an already sorted queue: after every entry whose
priority is at least its own, before the first strictly smaller one. -/
def stableInsert (r : QueuedRequest) : List QueuedRequest → List QueuedRequest
  | [] => [r]
  | b :: l => if r.priority ≤ b.priority then b :: stableInsert r l else r :: b :: l

/-- Embedding of LoadBalancer.processNextInQueue (lines 173-202): while a
slot is free, shift the head of the queue; a head whose queue time exceeds
requestTimeout is rejected with 408 and the next entry is tried; otherwise
the head is admitted. Returns the admitted request (if any) together with
the remaining queue. Nat subtraction matches Date.now() - timestamp because
timestamps never exceed now. -/
def processNextInQueue (now requestTimeout limit active : Nat) :
    List QueuedRequest → Option QueuedRequest × List QueuedRequest
  | [] => (none, [])
  | q :: rest =>
    if limit ≤ active then (none, q :: rest)
    else if requestTimeout < now - q.timestamp then
      processNextInQueue now requestTimeout limit active rest
    else (some q, rest)

/-- Boolean test that a pattern is a leading substring of a path, exactly
the JavaScript path.startsWith(pattern) used by getRequestPriority; paths
and patterns are modelled as lists of characters. -/
def startsWith : List Char → List Char → Bool
  | _, [] => true
  | [], _ :: _ => false
  | c :: cs, p :: ps => c = p && startsWith cs ps

/-- The static priorityLevels table of the LoadBalancer constructor (lines
38-49), in its JavaScript object insertion order and without the default
entry, which the lookup loop skips via continue. -/
def priorityLevels : List (List Char × Nat) :=
  [("/api/health".data, 10), ("/api/chat".data, 8), ("/api/pos".data, 9),
   ("/api/services".data, 7), ("/api/staff".data, 6),
   ("/api/appointments".data, 5), ("/api/analytics".data, 3),
   ("/api/marketing".data, 2), ("/api/loyalty".data, 2)]

/-- The default entry of priorityLevels. -/
def defaultPriority : Nat := 1

/-- Embedding of LoadBalancer.getRequestPriority (lines 225-233): walk the
table in insertion order and return the priority of the first pattern the
path starts with, or the default when none matches. -/
def getRequestPriority (path : List Char) : Nat :=
  match priorityLevels.find? (fun kv => startsWith path kv.1) with
  | some kv => kv.2
  | none => defaultPriority

/-- Stated from the spec for comparison with getRequestPriority: among the
table entries whose pattern is a leading substring of the path, take the one
with the longest pattern; unmatched paths get the default. -/
def longestMatch (path : List Char) : Option (List Char × Nat) :=
  (priorityLevels.filter (fun kv => startsWith path kv.1)).foldl
    (fun acc kv =>
      match acc with
      | none => some kv
      | some b => if b.1.length < kv.1.length then some kv else acc) none

/-- Priority assignment with longest-pattern-match semantics, the reading
the spec gives of the table lookup. -/
def longestPrefixPriority (path : List Char) : Nat :=
  match longestMatch path with
  | some kv => kv.2
  | none => defaultPriority

/-- Embedding of LoadBalancer.getPercentile (lines 316-321): sort a copy of
the samples ascending, take the entry at index ceil(p/100 * n) - 1 clamped
into range. The exact rational ceiling replaces the double rounding of the
source, which can differ by one index in corner cases; no theorem below
depends on the exact index. -/
def getPercentile (values : List Nat) (percentile : Nat) : Nat :=
  if values.length = 0 then 0
  else
    let sorted := values.insertionSort (fun a b => a ≤ b)
    let index := (percentile * values.length + 99) / 100 - 1
    sorted.getD (min index (sorted.length - 1)) 0

/-- Embedding of the body of LoadBalancer.checkAdaptiveThrottling (lines
263-311) after the five-second gate: the four-branch adjustment of
config.maxConcurrentRequests from the response time and error histories.
Division-free comparisons replace the floating point averages exactly:
sum / len &gt; c iff c * len &lt; sum (and an empty history yields NaN
comparisons that are all false, matched by the strict Nat comparisons).
Math.floor(limit * 0.3) and Math.floor(limit * 0.2) are modelled as exact
rational floors 3 * limit / 10 and 2 * limit / 10; binary doubles can be one
below on exact multiples, which no theorem below depends on. -/
def adaptiveAdjust (limit : Nat) (rts errs : List Nat) : Nat :=
  if rts.length < 5 then limit
  else
    let len := rts.length
    let sum := rts.sum
    let elen := errs.length
    let esum := errs.sum
    let p95 := getPercentile rts 95
    if 10000 * len < sum ∨ elen < 5 * esum ∨ 15000 < p95 then
      let reduction := min 50 (3 * limit / 10)
      max 20 (limit - reduction)
    else if 5000 * len < sum ∨ elen < 10 * esum ∨ 8000 < p95 then
      let reduction := min 20 (2 * limit / 10)
      max 30 (limit - reduction)
    else if sum < 2000 * len ∧ 50 * esum < elen ∧ p95 < 3000 then
      min 400 (limit + 10)
    else if sum < 1000 * len ∧ 100 * esum < elen then
      min 500 (limit + 15)
    else limit

/-- The adaptive-control state of the LoadBalancer: current concurrency
limit, the two bounded metric histories and the time of the last control
tick. -/
structure AdaptiveState where
  maxConcurrentRequests : Nat
  responseTimeHistory : List Nat
  errorRateHistory : List Nat
  lastAdaptiveCheck : Nat
deriving DecidableEq, Repr

/-- Embedding of LoadBalancer.checkAdaptiveThrottling (lines 258-311): if
less than five seconds have passed since the last check the state is
unchanged; otherwise the check time is recorded and the limit adjusted. -/
def checkAdaptiveThrottling (now : Nat) (s : AdaptiveState) : AdaptiveState :=
  if now - s.lastAdaptiveCheck < 5000 then s
  else
    { s with
      lastAdaptiveCheck := now,
      maxConcurrentRequests :=
        adaptiveAdjust s.maxConcurrentRequests
          s.responseTimeHistory s.errorRateHistory }

/-- A sequence of adaptive-control ticks: before each tick the two metric
histories have been updated arbitrarily by the finished requests recorded
since the previous tick, then checkAdaptiveThrottling runs at the given
time. -/
def runTicks (s : AdaptiveState) : List (Nat × List Nat × List Nat) → AdaptiveState
  | [] => s
  | (now, rts, errs) :: ts =>
    runTicks
      (checkAdaptiveThrottling now
        { s with responseTimeHistory := rts, errorRateHistory := errs }) ts

/-- State for the admission counting argument: the activeRequests counter
together with the bookkeeping the code keeps per request, namely which
requests were admitted (processRequest ran for them) and which of those have
already run their handleResponse (responseHandled = true). Requests are
identified by a Nat. -/
structure AdmState where
  activeRequests : Int
  admitted : Finset Nat
  handled : Finset Nat
deriving DecidableEq

/-- The initial admission state of a fresh LoadBalancer. -/
def initAdm : AdmState := { activeRequests := 0, admitted := ∅, handled := ∅ }

/-- Embedding of the admission side of LoadBalancer.processRequest (line
125): this.activeRequests++ for a fresh request. -/
def admitStep (s : AdmState) (id : Nat) : AdmState :=
  { s with activeRequests := s.activeRequests + 1,
           admitted := insert id s.admitted }

/-- Embedding of handleResponse (lines 132-150) being fired by any one of
the res.send wrapper, the res.json wrapper or the res close listener: the
responseHandled flag makes every signal after the first a no-op; the first
one decrements activeRequests. -/
def finishSignal (s : AdmState) (id : Nat) : AdmState :=
  if id ∈ s.handled then s
  else { s with activeRequests := s.activeRequests - 1,
                handled := insert id s.handled }

/-- One observable event of the admission counter: a request being admitted,
or one of its finish signals (send, json or close) firing. -/
inductive AdmEvent where
  | admitEv (id : Nat)
  | signal (id : Nat)
deriving DecidableEq, Repr

/-- Folding a sequence of admission events over a state. -/
def runAdm : AdmState → List AdmEvent → AdmState
  | s, [] => s
  | s, .admitEv id :: es => runAdm (admitStep s id) es
  | s, .signal id :: es => runAdm (finishSignal s id) es

/-- Well-formed event sequences: an admission event carries a fresh request id,
and finish signals only fire for requests that were admitted (the wrappers
that raise them are installed by processRequest). Several signals for the
same id are allowed. -/
def WFAdm : AdmState → List AdmEvent → Prop
  | _, [] => True
  | s, .admitEv id :: es => id ∉ s.admitted ∧ WFAdm (admitStep s id) es
  | s, .signal id :: es => id ∈ s.admitted ∧ WFAdm (finishSignal s id) es

instance : ∀ (s : AdmState) (es : List AdmEvent), Decidable (WFAdm s es)
  | _, [] => .isTrue trivial
  | s, .admitEv id :: es =>
    have : Decidable (WFAdm (admitStep s id) es) := instDecidableWFAdm _ es
    inferInstanceAs (Decidable (_ ∧ _))
  | s, .signal id :: es =>
    have : Decidable (WFAdm (finishSignal s id) es) := instDecidableWFAdm _ es
    inferInstanceAs (Decidable (_ ∧ _))

/-- The full middleware-facing state for the admission decision. -/
structure LBState where
  activeRequests : Nat
  requestQueue : List QueuedRequest
  maxConcurrentRequests : Nat
  maxQueueSize : Nat
deriving DecidableEq, Repr

/-- Outcome of one arrival through the middleware. -/
inductive ArrivalOutcome where
  | immediate
  | queued
  | rejectedQueueFull
deriving DecidableEq, Repr

/-- Embedding of LoadBalancer.middleware (lines 58-70) together with
queueRequest (lines 75-119): at capacity the request is queued (or rejected
with 503 when the queue is full), otherwise processRequest runs it at once,
incrementing activeRequests and leaving the queue untouched. -/
def middlewareArrive (s : LBState) (r : QueuedRequest) : ArrivalOutcome × LBState :=
  if s.maxConcurrentRequests ≤ s.activeRequests then
    if s.maxQueueSize ≤ s.requestQueue.length then (.rejectedQueueFull, s)
    else (.queued, { s with requestQueue := enqueue s.requestQueue r })
  else
    (.immediate, { s with activeRequests := s.activeRequests + 1 })

end LoadBalancer

namespace JobQueue

/-- The five statuses of a Job in src/lib/jobs/queue.ts. -/
inductive JobStatus where
  | pending
  | running
  | completed
  | failed
  | cancelled
deriving DecidableEq, Repr

/-- Embedding of the Job record of src/lib/jobs/queue.ts. The field named
type in the source is called jobType here; payload and result are kept as
strings, which the queue logic never inspects. -/
structure Job where
  id : Nat
  jobType : String
  data : String
  priority : Nat
  maxRetries : Nat
  retryCount : Nat
  createdAt : Nat
  nextRunAt : Nat
  status : JobStatus
  result : Option String
  error : Option String
  idempotencyKey : Option String
deriving DecidableEq, Repr

/-- The part of QueueConfig the verified operations read. -/
structure QueueConfig where
  maxConcurrency : Nat
  retryDelayMs : Nat
  maxRetries : Nat
deriving DecidableEq, Repr

/-- The constructor defaults of JobQueue (lines 48-55) with no overrides and
no environment variables set. -/
def defaultQueueConfig : QueueConfig :=
  { maxConcurrency := 5, retryDelayMs := 60000, maxRetries := 3 }

/-- JavaScript defaulting with the logical-or operator on an optional
number: undefined and 0 are both falsy, so both select the default. -/
def jsOrNat (v : Option Nat) (d : Nat) : Nat :=
  match v with
  | none => d
  | some n => if n = 0 then d else n

/-- The options bag of JobQueue.addJob. -/
structure AddJobOptions where
  priority : Option Nat := none
  maxRetries : Option Nat := none
  delayMs : Option Nat := none
  idempotencyKey : Option String := none
deriving DecidableEq, Repr

/-- The job record built at the top of JobQueue.addJob (lines 83-94):
options.priority falls back to 5 and options.maxRetries to the configured
default through the falsy-or, options.delayMs offsets nextRunAt from now. -/
def mkJob (cfg : QueueConfig) (jobId now : Nat) (ty dat : String)
    (opts : AddJobOptions) : Job :=
  { id := jobId, jobType := ty, data := dat,
    priority := jsOrNat opts.priority 5,
    maxRetries := jsOrNat opts.maxRetries cfg.maxRetries,
    retryCount := 0, createdAt := now,
    nextRunAt := now + jsOrNat opts.delayMs 0,
    status := .pending, result := none, error := none,
    idempotencyKey := opts.idempotencyKey }

/-- The idempotency test of addJob (lines 98-99): an existing job matches
when it carries the same key and its status is not cancelled. -/
def idemMatches (key : String) (j : Job) : Bool :=
  decide (j.idempotencyKey = some key) && decide (¬ j.status = JobStatus.cancelled)

/-- Embedding of JobQueue.addJob (lines 71-111) on the job store, which is a
Map iterated in insertion order and therefore modelled as a list; jobId is
the freshly generated id. With a truthy idempotency key (the empty string is
falsy and skips the check), the first non-cancelled job with the same key is
returned instead of inserting; otherwise the new job is appended. Returns
the id handed back to the caller and the updated store. -/
def addJob (cfg : QueueConfig) (jobs : List Job) (jobId now : Nat)
    (ty dat : String) (opts : AddJobOptions) : Nat × List Job :=
  let job := mkJob cfg jobId now ty dat opts
  match opts.idempotencyKey with
  | some key =>
    if key = "" then (jobId, jobs ++ [job])
    else
      match jobs.find? (idemMatches key) with
      | some existing => (existing.id, jobs)
      | none => (jobId, jobs ++ [job])
  | none => (jobId, jobs ++ [job])

/-- The selection test of JobQueue.processJobs (line 194): only pending jobs
whose nextRunAt has elapsed are picked up by a tick. -/
def jobEligible (now : Nat) (j : Job) : Bool :=
  decide (j.status = JobStatus.pending) && decide (j.nextRunAt ≤ now)

/-- Embedding of the failure path of JobQueue.processJob (lines 249-271) for
one execution whose handler throws with message msg at time now: the status
was set to running at entry, the catch block increments retryCount, and
either reschedules the job as pending with nextRunAt pushed forward by
retryDelayMs times the new retryCount, or marks it failed for good. -/
def failAttempt (cfg : QueueConfig) (now : Nat) (msg : String) (j : Job) : Job :=
  let rc := j.retryCount + 1
  if rc < j.maxRetries then
    { j with status := .pending, retryCount := rc,
             nextRunAt := now + cfg.retryDelayMs * rc,
             error := some ("Attempt " ++ toString rc ++ " failed: " ++ msg) }
  else
    { j with status := .failed, retryCount := rc,
             error := some ("Max retries exceeded. Final error: " ++ msg) }

/-- The state of a job after k executions of an always-failing handler,
where times gives the wall-clock instant of each execution. -/
def jobRun (cfg : QueueConfig) (times : Nat → Nat) (msg : String) (j : Job) :
    Nat → Job
  | 0 => j
  | k + 1 => failAttempt cfg (times k) msg (jobRun cfg times msg j k)

end JobQueue

namespace ConnectionPool

/-- The observable lease events of EnhancedConnectionPool.transaction:
acquiring the client, issuing BEGIN, COMMIT and ROLLBACK, and releasing the
client back to the pool. -/
inductive PoolEvent where
  | acquireConn
  | beginTx
  | commitTx
  | rollbackTx
  | releaseConn
deriving DecidableEq, Repr

/-- A completed asynchronous computation against the pool: the sequence of
lease events it emitted and its outcome, either a value or a thrown error. -/
structure TxResult (ε α : Type) where
  trace : List PoolEvent
  outcome : Except ε α

/-- Sequencing of two computations: when the first throws, the second never
runs. -/
def bindTx {ε α β : Type} (m : TxResult ε α) (f : α → TxResult ε β) : TxResult ε β :=
  match m.outcome with
  | .error e => { trace := m.trace, outcome := .error e }
  | .ok a =>
    let n := f a
    { trace := m.trace ++ n.trace, outcome := n.outcome }

/-- A JavaScript try/catch: the handler runs exactly when the body throws,
and its outcome replaces the thrown error. -/
def tryCatchTx {ε α : Type} (m : TxResult ε α) (h : ε → TxResult ε α) : TxResult ε α :=
  match m.outcome with
  | .ok a => { trace := m.trace, outcome := .ok a }
  | .error e =>
    let n := h e
    { trace := m.trace ++ n.trace, outcome := n.outcome }

/-- A JavaScript try/finally: the finalizer always runs; when it completes
normally the outcome of the body stands, and when it throws its error
replaces the outcome of the body. -/
def tryFinallyTx {ε α : Type} (m : TxResult ε α) (fin : TxResult ε Unit) : TxResult ε α :=
  { trace := m.trace ++ fin.trace,
    outcome :=
      match fin.outcome with
      | .ok _ => m.outcome
      | .error e => .error e }

/-- An operation that emits one event and always succeeds; client.release()
is of this shape. -/
def emitTx {ε : Type} (e : PoolEvent) : TxResult ε Unit :=
  { trace := [e], outcome := .ok () }

/-- A client.query of one of the control statements: the statement is issued
(its event is emitted) and the call either resolves or rejects according to
the failure parameter. -/
def queryTx {ε : Type} (failure : Option ε) (e : PoolEvent) : TxResult ε Unit :=
  { trace := [e],
    outcome :=
      match failure with
      | none => .ok ()
      | some err => .error err }

/-- Embedding of EnhancedConnectionPool.transaction (lines 298-316):
acquire a client, then inside try issue BEGIN, run the callback, issue
COMMIT and return its result; on any throw the catch issues ROLLBACK and
rethrows; the finally releases the client. The callback fn is given as a
completed computation (its emitted events and its outcome); beginFail,
commitFail and rollbackFail state whether the respective control statement
rejects. -/
def transaction {ε α : Type} (beginFail commitFail rollbackFail : Option ε)
    (fn : TxResult ε α) : TxResult ε α :=
  bindTx (emitTx .acquireConn) (fun _ =>
    tryFinallyTx
      (tryCatchTx
        (bindTx (queryTx beginFail .beginTx) (fun _ =>
          bindTx fn (fun a =>
            bindTx (queryTx commitFail .commitTx) (fun _ =>
              { trace := [], outcome := .ok a }))))
        (fun err =>
          bindTx (queryTx rollbackFail .rollbackTx) (fun _ =>
            { trace := [], outcome := .error err })))
      (emitTx .releaseConn))

/-- The pool sizing and timeout configuration the constructor of
EnhancedConnectionPool reads (lines 57-75); only the fields the verified
claims use are kept. -/
structure PoolSizing where
  minCount : Nat
  maxCount : Nat
  acquireTimeoutMillis : Nat
deriving DecidableEq, Repr

/-- The constructor defaults of EnhancedConnectionPool (lines 59-63): min 5,
max 25, acquire timeout 10000 milliseconds. -/
def defaultPoolSizing : PoolSizing :=
  { minCount := 5, maxCount := 25, acquireTimeoutMillis := 10000 }

/-- Counting state of the underlying pool: leases currently borrowed and
leases sitting idle. -/
structure LeaseState where
  active : Nat
  idle : Nat
deriving DecidableEq, Repr

/-- The error getConnection surfaces when the acquire wait times out. -/
inductive AcquireError where
  | leaseAcquireTimeout
deriving DecidableEq, Repr

/-- Modelled from the spec: the waiting behavior of pool.connect() that
getConnection (lines 281-293) delegates to lives in the pg library, not in
this repository, so it is modelled from the spec sentences on acquire: an
idle lease is handed out at once; below the maximum a new lease is created
at once; at the maximum the caller waits until the first release or until
acquireTimeoutMillis elapses, in which case the acquire fails with the
lease-acquire-timeout error instead of blocking further. The releases
argument lists the instants (relative to the start of the wait) at which
some lease is released; the result carries how long the caller waited. -/
def acquireLease (cfg : PoolSizing) (s : LeaseState) (releases : List Nat) :
    Except (AcquireError × Nat) (Nat × LeaseState) :=
  if 0 < s.idle then
    .ok (0, { active := s.active + 1, idle := s.idle - 1 })
  else if s.active < cfg.maxCount then
    .ok (0, { active := s.active + 1, idle := s.idle })
  else
    match (releases.filter (fun t => t ≤ cfg.acquireTimeoutMillis)).min? with
    | some t => .ok (t, s)
    | none => .error (.leaseAcquireTimeout, cfg.acquireTimeoutMillis)

end ConnectionPool

namespace LoadBalancer

/-- From the lexicographic order, the priority of the later entry is at most
the priority of the earlier one. -/
theorem lexBefore_le {a x : QueuedRequest} (h : lexBefore a x) :
    x.priority ≤ a.priority := by
  rcases h with h | ⟨h, _⟩
  · omega
  · omega

/-- Inserting an element that compares at least as high as every member of a
list places it at the front. -/
theorem orderedInsert_of_forall (a : QueuedRequest) (l : List QueuedRequest)
    (h : ∀ x ∈ l, prioGE a x) : List.orderedInsert prioGE a l = a :: l := by
  cases l with
  | nil => rfl
  | cons b l' =>
    simp only [List.orderedInsert]
    rw [if_pos (h b (List.mem_cons_self b l'))]

/-- Membership in a stable insertion. -/
theorem mem_stableInsert (r x : QueuedRequest) (l : List QueuedRequest) :
    x ∈ stableInsert r l ↔ x = r ∨ x ∈ l := by
  induction l with
  | nil => simp [stableInsert]
  | cons b l ih =>
    simp only [stableInsert]
    split
    · simp only [List.mem_cons, ih]
      tauto
    · simp [List.mem_cons]

/-- The stable sort of queueRequest run on a sorted queue with a newly
pushed request appended places the new request after every entry of at least
its priority and before the first strictly smaller one. -/
theorem sortQueue_append (q : List QueuedRequest) (r : QueuedRequest)
    (hq : queueOrdered q) (ht : ∀ x ∈ q, x.timestamp < r.timestamp) :
    sortQueue (q ++ [r]) = stableInsert r q := by
  induction q with
  | nil => simp [sortQueue, List.insertionSort, List.orderedInsert, stableInsert]
  | cons a q' ih =>
    have ha : ∀ x ∈ q', lexBefore a x := (List.pairwise_cons.mp hq).1
    have hq' : queueOrdered q' := (List.pairwise_cons.mp hq).2
    have ht' : ∀ x ∈ q', x.timestamp < r.timestamp :=
      fun x hx => ht x (List.mem_cons_of_mem a hx)
    have step : sortQueue ((a :: q') ++ [r]) =
        List.orderedInsert prioGE a (sortQueue (q' ++ [r])) := rfl
    rw [step, ih hq' ht']
    cases q' with
    | nil =>
      by_cases hd : r.priority ≤ a.priority
      · simp [stableInsert, List.orderedInsert, prioGE, hd]
      · simp [stableInsert, List.orderedInsert, prioGE, hd]
    | cons b l =>
      have hab : b.priority ≤ a.priority :=
        lexBefore_le (ha b (List.mem_cons_self b l))
      by_cases hc : r.priority ≤ b.priority
      · have hra : r.priority ≤ a.priority := le_trans hc hab
        simp [stableInsert, List.orderedInsert, prioGE, hc, hab, hra]
      · by_cases hd : r.priority ≤ a.priority
        · simp [stableInsert, List.orderedInsert, prioGE, hc, hd]
        · have h1 : stableInsert r (b :: l) = r :: b :: l := by
            simp [stableInsert, hc]
          have h2 : stableInsert r (a :: b :: l) = r :: a :: b :: l := by
            simp [stableInsert, hd]
          rw [h1, h2]
          simp only [List.orderedInsert, prioGE]
          rw [if_neg hd, if_pos hab]

/-- Stable insertion of a later-arriving request preserves the queue
ordering invariant. -/
theorem stableInsert_ordered (r : QueuedRequest) (q : List QueuedRequest)
    (hq : queueOrdered q) (ht : ∀ x ∈ q, x.timestamp < r.timestamp) :
    queueOrdered (stableInsert r q) := by
  induction q with
  | nil => simp [stableInsert, queueOrdered]
  | cons b l ih =>
    have hb : ∀ x ∈ l, lexBefore b x := (List.pairwise_cons.mp hq).1
    have hl : queueOrdered l := (List.pairwise_cons.mp hq).2
    have htl : ∀ x ∈ l, x.timestamp < r.timestamp :=
      fun x hx => ht x (List.mem_cons_of_mem b hx)
    by_cases hc : r.priority ≤ b.priority
    · simp only [stableInsert, if_pos hc]
      refine List.pairwise_cons.mpr ⟨?_, ih hl htl⟩
      intro x hx
      rcases (mem_stableInsert r x l).mp hx with rfl | hxl
      · rcases lt_or_eq_of_le hc with h | h
        · exact Or.inl h
        · exact Or.inr ⟨h.symm, ht b (List.mem_cons_self b l)⟩
      · exact hb x hxl
    · have hbr : b.priority < r.priority := not_le.mp hc
      simp only [stableInsert, if_neg hc]
      refine List.pairwise_cons.mpr ⟨?_, hq⟩
      intro x hx
      rcases List.mem_cons.mp hx with rfl | hxl
      · exact Or.inl hbr
      · exact Or.inl (lt_of_le_of_lt (lexBefore_le (hb x hxl)) hbr)

/-- The request admitted by processNextInQueue from a sorted queue precedes,
in the priority-then-arrival order, every queued request that has not yet
timed out. -/
theorem processNext_least (now tmo limit active : Nat) (d : QueuedRequest) :
    ∀ (q rest : List QueuedRequest), queueOrdered q →
      processNextInQueue now tmo limit active q = (some d, rest) →
      ∀ x ∈ q, now - x.timestamp ≤ tmo → x = d ∨ lexBefore d x := by
  intro q
  induction q with
  | nil =>
    intro rest _ h
    simp [processNextInQueue] at h
  | cons a q' ih =>
    intro rest hq h
    simp only [processNextInQueue] at h
    by_cases hcap : limit ≤ active
    · rw [if_pos hcap] at h
      simp at h
    · rw [if_neg hcap] at h
      by_cases hexp : tmo < now - a.timestamp
      · rw [if_pos hexp] at h
        intro x hx hlive
        rcases List.mem_cons.mp hx with rfl | hx'
        · omega
        · exact ih rest (List.pairwise_cons.mp hq).2 h x hx' hlive
      · rw [if_neg hexp] at h
        have hda : a = d := by
          have := congrArg Prod.fst h
          simpa using this
        intro x hx hlive
        rcases List.mem_cons.mp hx with rfl | hx'
        · exact Or.inl hda
        · exact Or.inr (hda ▸ (List.pairwise_cons.mp hq).1 x hx')

/-- C5: the admission queue is kept ordered by priority descending with ties
broken by arrival time ascending (first conjunct: enqueue, which pushes and
stably re-sorts, preserves the ordering invariant for a later arrival), and
when capacity frees up the request admitted by processNextInQueue precedes
every other live queued request in that order: equal priority is served in
arrival order and a higher priority request is served before every
lower-priority one (second conjunct). -/
theorem claim_C5_priority_fifo (q : List QueuedRequest) (r : QueuedRequest)
    (now tmo limit active : Nat) (d : QueuedRequest) (rest : List QueuedRequest)
    (hq : queueOrdered q) :
    ((∀ x ∈ q, x.timestamp < r.timestamp) → queueOrdered (enqueue q r)) ∧
    (processNextInQueue now tmo limit active q = (some d, rest) →
      ∀ x ∈ q, now - x.timestamp ≤ tmo → x = d ∨ lexBefore d x) := by
  constructor
  · intro ht
    unfold enqueue
    rw [sortQueue_append q r hq ht]
    exact stableInsert_ordered r q hq ht
  · intro h
    exact processNext_least now tmo limit active d q rest hq h

/-- Concrete instantiation of the C5 theorem: enqueueing priority 9 into a
sorted queue of priorities 5 and 1 keeps the queue sorted, and the entry the
dispatcher admits from that two-entry queue precedes the other live entry. -/
theorem claim_C5_priority_fifo_witness :
    queueOrdered (enqueue [⟨5, 0⟩, ⟨1, 1⟩] ⟨9, 2⟩) ∧
    ((⟨1, 1⟩ : QueuedRequest) = ⟨5, 0⟩ ∨ lexBefore ⟨5, 0⟩ ⟨1, 1⟩) := by
  have h := claim_C5_priority_fifo [⟨5, 0⟩, ⟨1, 1⟩] ⟨9, 2⟩ 10 45000 200 0
    ⟨5, 0⟩ [⟨1, 1⟩] (by decide)
  exact ⟨h.1 (by decide), h.2 (by decide) ⟨1, 1⟩ (by decide) (by decide)⟩

/-- C9: a request arriving while activeRequests is strictly below the
concurrency limit is run immediately by the middleware, incrementing
activeRequests and leaving the queue untouched even when the queue is
non-empty, so it starts ahead of every queued request (first conjunct); an
arrival never removes anything from the queue (second conjunct) — in the
source processNextInQueue is invoked only from handleResponse, that is,
when an admitted request finishes. -/
theorem claim_C9_immediate_admission (s : LBState) (r : QueuedRequest) :
    (s.activeRequests < s.maxConcurrentRequests →
      middlewareArrive s r =
        (.immediate, { s with activeRequests := s.activeRequests + 1 })) ∧
    s.requestQueue.length ≤ ((middlewareArrive s r).2).requestQueue.length := by
  constructor
  · intro h
    unfold middlewareArrive
    rw [if_neg (not_le.mpr h)]
  · unfold middlewareArrive
    by_cases h1 : s.maxConcurrentRequests ≤ s.activeRequests
    · rw [if_pos h1]
      by_cases h2 : s.maxQueueSize ≤ s.requestQueue.length
      · rw [if_pos h2]
      · rw [if_neg h2]
        simp only [enqueue, sortQueue, List.length_insertionSort, List.length_append]
        omega
    · rw [if_neg h1]

/-- Concrete instantiation of the C9 theorem: with limit 200, one active
request and a non-empty queue, a new arrival is admitted immediately and the
queue is not shortened. -/
theorem claim_C9_immediate_admission_witness :
    middlewareArrive ⟨1, [⟨9, 0⟩], 200, 1000⟩ ⟨1, 5⟩ =
      (.immediate, ⟨2, [⟨9, 0⟩], 200, 1000⟩) ∧
    (1 : Nat) ≤ ((middlewareArrive ⟨1, [⟨9, 0⟩], 200, 1000⟩ ⟨1, 5⟩).2).requestQueue.length := by
  have h := claim_C9_immediate_admission ⟨1, [⟨9, 0⟩], 200, 1000⟩ ⟨1, 5⟩
  exact ⟨h.1 (by decide), h.2⟩

end LoadBalancer

namespace LoadBalancer

/-- Both adjustment directions of adaptiveAdjust keep the concurrency limit
between 20 and 500. -/
theorem adaptiveAdjust_bounds (limit : Nat) (rts errs : List Nat)
    (h1 : 20 ≤ limit) (h2 : limit ≤ 500) :
    20 ≤ adaptiveAdjust limit rts errs ∧ adaptiveAdjust limit rts errs ≤ 500 := by
  unfold adaptiveAdjust
  dsimp only
  refine ⟨?_, ?_⟩ <;> split_ifs <;> omega

/-- One control tick keeps the concurrency limit between 20 and 500. -/
theorem checkAdaptiveThrottling_bounds (now : Nat) (s : AdaptiveState)
    (h1 : 20 ≤ s.maxConcurrentRequests) (h2 : s.maxConcurrentRequests ≤ 500) :
    20 ≤ (checkAdaptiveThrottling now s).maxConcurrentRequests ∧
    (checkAdaptiveThrottling now s).maxConcurrentRequests ≤ 500 := by
  unfold checkAdaptiveThrottling
  split
  · exact ⟨h1, h2⟩
  · exact adaptiveAdjust_bounds s.maxConcurrentRequests _ _ h1 h2

/-- C6 counterexample: the claim that every reduction step is floored at a
single configured minimum and every increase step capped at a single
configured maximum fails on the code. From limit 21, a high-load tick sets
the limit to its floor 30, above the previous limit, while from limit 31 an
extreme-load tick lands on 22, below 30: reductions are floored at two
different values (30 and 20). From limit 398, a good-performance tick caps
at 400 while an excellent-performance tick reaches 413, above 400: increases
are capped at two different values (400 and 500). -/
theorem claim_C6_counterexample :
    adaptiveAdjust 21 [6000, 6000, 6000, 6000, 6000] [0, 0, 0, 0, 0] = 30 ∧
    adaptiveAdjust 31 [20000, 20000, 20000, 20000, 20000] [0, 0, 0, 0, 0] = 22 ∧
    adaptiveAdjust 398 [1500, 1500, 1500, 1500, 1500] [0, 0, 0, 0, 0] = 400 ∧
    adaptiveAdjust 398 [1, 1, 1, 1, 4000] [0, 0, 0, 0, 0] = 413 := by
  decide

/-- C6 amended: under every sequence of adaptive-throttling control ticks
the concurrency limit stays between 20 and 500 (the two branch floors are 20
for extreme load and 30 for high load, the two branch caps 400 for good and
500 for excellent performance); from any start in that range, in particular
the default 200, the limit never leaves it. -/
theorem claim_C6_limit_bounds_amended (s : AdaptiveState)
    (ts : List (Nat × List Nat × List Nat))
    (h1 : 20 ≤ s.maxConcurrentRequests) (h2 : s.maxConcurrentRequests ≤ 500) :
    20 ≤ (runTicks s ts).maxConcurrentRequests ∧
    (runTicks s ts).maxConcurrentRequests ≤ 500 := by
  induction ts generalizing s with
  | nil => exact ⟨h1, h2⟩
  | cons t ts ih =>
    obtain ⟨now, rts, errs⟩ := t
    have hstep := checkAdaptiveThrottling_bounds now
      { s with responseTimeHistory := rts, errorRateHistory := errs } h1 h2
    exact ih _ hstep.1 hstep.2

/-- Concrete instantiation of the amended C6 theorem: three ticks from the
default limit 200, an extreme-load one, a high-load one and an excellent one,
leave the limit within the 20 to 500 range. -/
theorem claim_C6_limit_bounds_amended_witness :
    20 ≤ (runTicks ⟨200, [], [], 0⟩
      [(6000, [20000, 20000, 20000, 20000, 20000], [1, 1, 1, 1, 1]),
       (12000, [6000, 6000, 6000, 6000, 6000], [0, 0, 0, 0, 0]),
       (18000, [1, 1, 1, 1, 1], [0, 0, 0, 0, 0])]).maxConcurrentRequests ∧
    (runTicks ⟨200, [], [], 0⟩
      [(6000, [20000, 20000, 20000, 20000, 20000], [1, 1, 1, 1, 1]),
       (12000, [6000, 6000, 6000, 6000, 6000], [0, 0, 0, 0, 0]),
       (18000, [1, 1, 1, 1, 1], [0, 0, 0, 0, 0])]).maxConcurrentRequests ≤ 500 :=
  claim_C6_limit_bounds_amended ⟨200, [], [], 0⟩ _ (by decide) (by decide)

/-- Two patterns that are both leading substrings of the same path are
comparable: one of them is a leading substring of the other. -/
theorem startsWith_comparable :
    ∀ (path k1 k2 : List Char), startsWith path k1 = true →
      startsWith path k2 = true →
      startsWith k2 k1 = true ∨ startsWith k1 k2 = true := by
  intro path
  induction path with
  | nil =>
    intro k1 k2 h1 h2
    cases k1 with
    | nil => left; cases k2 <;> simp [startsWith]
    | cons a as => simp [startsWith] at h1
  | cons c cs ih =>
    intro k1 k2 h1 h2
    cases k1 with
    | nil => left; cases k2 <;> simp [startsWith]
    | cons a as =>
      cases k2 with
      | nil => right; simp [startsWith]
      | cons b bs =>
        simp only [startsWith, Bool.and_eq_true, decide_eq_true_eq] at h1 h2
        obtain ⟨rfl, h1'⟩ := h1
        obtain ⟨rfl, h2'⟩ := h2
        rcases ih as bs h1' h2' with h | h
        · left
          simp [startsWith, h]
        · right
          simp [startsWith, h]

/-- When at most one element of a list satisfies a test, filtering by the
test yields the empty list and a failing lookup, or a singleton whose sole
element the lookup finds. -/
theorem find_filter_of_at_most_one {α : Type} (p : α → Bool) :
    ∀ (L : List α), (L.Pairwise fun a b => p a = true → p b = true → False) →
      (L.filter p = [] ∧ L.find? p = none) ∨
      (∃ x, L.filter p = [x] ∧ L.find? p = some x) := by
  intro L
  induction L with
  | nil => intro _; left; simp
  | cons a L' ih =>
    intro hp
    have ha := (List.pairwise_cons.mp hp).1
    have hL' := (List.pairwise_cons.mp hp).2
    by_cases hpa : p a = true
    · right
      refine ⟨a, ?_, List.find?_cons_of_pos L' hpa⟩
      have hnone : L'.filter p = [] := by
        rw [List.filter_eq_nil_iff]
        intro x hx hpx
        exact ha x hx hpa hpx
      simp [List.filter_cons, hpa, hnone]
    · rcases ih hL' with ⟨h1, h2⟩ | ⟨x, h1, h2⟩
      · left
        constructor
        · simp [List.filter_cons, hpa, h1]
        · rw [List.find?_cons_of_neg L' hpa, h2]
      · right
        refine ⟨x, ?_, ?_⟩
        · simp [List.filter_cons, hpa, h1]
        · rw [List.find?_cons_of_neg L' hpa, h2]

/-- C7: for every request path, the priority computed by the first-match
loop of getRequestPriority coincides with the longest-matching-pattern
semantics of the spec, because no pattern of the static priorityLevels table
is a leading substring of another, so at most one pattern can match a path;
a path matched by no pattern gets the default priority. -/
theorem claim_C7_longest_match (path : List Char) :
    getRequestPriority path = longestPrefixPriority path ∧
    ((∀ kv ∈ priorityLevels, startsWith path kv.1 = false) →
      getRequestPriority path = defaultPriority) := by
  have hpw : priorityLevels.Pairwise
      (fun a b => startsWith b.1 a.1 = false ∧ startsWith a.1 b.1 = false) := by
    decide
  have hone : priorityLevels.Pairwise
      (fun a b => startsWith path a.1 = true → startsWith path b.1 = true → False) := by
    refine hpw.imp ?_
    intro a b hab h1 h2
    rcases startsWith_comparable path a.1 b.1 h1 h2 with h | h
    · rw [hab.1] at h
      exact Bool.false_ne_true h
    · rw [hab.2] at h
      exact Bool.false_ne_true h
  rcases find_filter_of_at_most_one (fun kv => startsWith path kv.1)
      priorityLevels hone with ⟨hf, hd⟩ | ⟨x, hf, hd⟩
  · constructor
    · unfold getRequestPriority longestPrefixPriority longestMatch
      rw [hd, hf]
      rfl
    · intro _
      unfold getRequestPriority
      rw [hd]
  · constructor
    · unfold getRequestPriority longestPrefixPriority longestMatch
      rw [hd, hf]
      rfl
    · intro hnone
      have hx := List.mem_filter.mp (hf ▸ List.mem_singleton.mpr rfl)
      rw [hnone x hx.1] at hx
      exact absurd hx.2 (by simp)

/-- Concrete instantiation of the C7 theorem: an unmatched path gets the
default priority 1, and on a matched path the first-match loop and the
longest-match reading agree. -/
theorem claim_C7_longest_match_witness :
    getRequestPriority "/healthz".data = defaultPriority ∧
    getRequestPriority "/api/pos/sale".data =
      longestPrefixPriority "/api/pos/sale".data :=
  ⟨(claim_C7_longest_match "/healthz".data).2 (by decide),
   (claim_C7_longest_match "/api/pos/sale".data).1⟩

end LoadBalancer

namespace LoadBalancer

/-- The invariant that ties the activeRequests counter to the bookkeeping
sets: every handled request was admitted, and the counter equals the number
of admitted requests not yet handled, that is, the in-flight requests. -/
def admInv (s : AdmState) : Prop :=
  s.handled ⊆ s.admitted ∧
  s.activeRequests = ((s.admitted \ s.handled).card : Int)

/-- Every well-formed event sequence preserves the admission invariant. -/
theorem runAdm_inv :
    ∀ (es : List AdmEvent) (s : AdmState), admInv s → WFAdm s es →
      admInv (runAdm s es) := by
  intro es
  induction es with
  | nil => intro s h _; exact h
  | cons e es ih =>
    intro s hInv hwf
    cases e with
    | admitEv id =>
      obtain ⟨hid, hwf'⟩ := hwf
      refine ih _ ?_ hwf'
      obtain ⟨hsub, hcard⟩ := hInv
      constructor
      · intro x hx
        exact Finset.mem_insert_of_mem (hsub hx)
      · show s.activeRequests + 1 = ((insert id s.admitted \ s.handled).card : Int)
        have hidh : id ∉ s.handled := fun hmem => hid (hsub hmem)
        have hset : insert id s.admitted \ s.handled =
            insert id (s.admitted \ s.handled) := by
          ext x
          simp only [Finset.mem_sdiff, Finset.mem_insert]
          constructor
          · rintro ⟨h1 | h1, h2⟩
            · exact Or.inl h1
            · exact Or.inr ⟨h1, h2⟩
          · rintro (rfl | ⟨h1, h2⟩)
            · exact ⟨Or.inl rfl, hidh⟩
            · exact ⟨Or.inr h1, h2⟩
        have hnotin : id ∉ s.admitted \ s.handled :=
          fun hmem => hid (Finset.mem_sdiff.mp hmem).1
        rw [hset, Finset.card_insert_of_not_mem hnotin]
        omega
    | signal id =>
      obtain ⟨hid, hwf'⟩ := hwf
      refine ih _ ?_ hwf'
      obtain ⟨hsub, hcard⟩ := hInv
      unfold finishSignal
      by_cases hh : id ∈ s.handled
      · rw [if_pos hh]
        exact ⟨hsub, hcard⟩
      · rw [if_neg hh]
        constructor
        · intro x hx
          rcases Finset.mem_insert.mp hx with rfl | hx'
          · exact hid
          · exact hsub hx'
        · show s.activeRequests - 1 = ((s.admitted \ insert id s.handled).card : Int)
          have hmem : id ∈ s.admitted \ s.handled := Finset.mem_sdiff.mpr ⟨hid, hh⟩
          have hset : s.admitted \ insert id s.handled =
              (s.admitted \ s.handled).erase id := by
            ext x
            simp only [Finset.mem_sdiff, Finset.mem_insert, Finset.mem_erase]
            constructor
            · rintro ⟨h1, h2⟩
              push_neg at h2
              exact ⟨h2.1, h1, h2.2⟩
            · rintro ⟨h1, h2, h3⟩
              exact ⟨h2, by push_neg; exact ⟨h1, h3⟩⟩
          have hpos : 0 < (s.admitted \ s.handled).card :=
            Finset.card_pos.mpr ⟨id, hmem⟩
          rw [hset, Finset.card_erase_of_mem hmem]
          omega

/-- C2: for every well-formed sequence of admission and finish events
starting from a fresh balancer, the activeRequests counter equals the number
of admitted requests whose handleResponse has not yet run, that is, the
in-flight requests (first conjunct); any finish signal after the first for
the same request, whether raised by res.send, res.json or the close
listener, leaves the state unchanged, so the decrement happens exactly once
per admitted request (second conjunct). -/
theorem claim_C2_active_requests_invariant (es : List AdmEvent)
    (hwf : WFAdm initAdm es) :
    (runAdm initAdm es).activeRequests =
      (((runAdm initAdm es).admitted \ (runAdm initAdm es).handled).card : Int) ∧
    ∀ (s : AdmState) (id : Nat), id ∈ s.handled → finishSignal s id = s := by
  constructor
  · have hinit : admInv initAdm := by
      constructor
      · intro x hx
        simp [initAdm] at hx
      · simp [initAdm]
    exact (runAdm_inv es initAdm hinit hwf).2
  · intro s id h
    unfold finishSignal
    rw [if_pos h]

/-- Concrete instantiation of the C2 theorem: two admissions followed by a
duplicated finish signal for the first request leave one request in flight,
and the counter agrees; a repeated signal on an already handled request is a
no-op. -/
theorem claim_C2_active_requests_invariant_witness :
    (runAdm initAdm [.admitEv 0, .admitEv 1, .signal 0, .signal 0]).activeRequests =
      (((runAdm initAdm [.admitEv 0, .admitEv 1, .signal 0, .signal 0]).admitted \
        (runAdm initAdm [.admitEv 0, .admitEv 1, .signal 0, .signal 0]).handled).card : Int) ∧
    finishSignal ⟨5, {1}, {1}⟩ 1 = ⟨5, {1}, {1}⟩ := by
  have h := claim_C2_active_requests_invariant
    [.admitEv 0, .admitEv 1, .signal 0, .signal 0] (by decide)
  exact ⟨h.1, h.2 ⟨5, {1}, {1}⟩ 1 (by decide)⟩

end LoadBalancer

namespace JobQueue

/-- Intermediate states of an always-failing job: before the retries are
exhausted, after k executions the job is back to pending with retryCount k,
unchanged maxRetries, and (for k at least one) the linearly backed-off
nextRunAt and the attempt error recorded. -/
theorem jobRun_mid (cfg : QueueConfig) (times : Nat → Nat) (msg : String)
    (j : Job) (hs : j.status = JobStatus.pending) (hr : j.retryCount = 0) :
    ∀ k, k < j.maxRetries →
      (jobRun cfg times msg j k).status = JobStatus.pending ∧
      (jobRun cfg times msg j k).retryCount = k ∧
      (jobRun cfg times msg j k).maxRetries = j.maxRetries ∧
      (1 ≤ k →
        (jobRun cfg times msg j k).nextRunAt =
          times (k - 1) + cfg.retryDelayMs * k ∧
        (jobRun cfg times msg j k).error =
          some ("Attempt " ++ toString k ++ " failed: " ++ msg)) := by
  intro k
  induction k with
  | zero =>
    intro _
    exact ⟨hs, hr, rfl, by omega⟩
  | succ k ih =>
    intro hk
    obtain ⟨ihs, ihr, ihm, _⟩ := ih (by omega)
    refine ⟨?_, ?_, ?_, fun _ => ⟨?_, ?_⟩⟩ <;>
      simp [jobRun, failAttempt, ihr, ihm, hk]

/-- C3: a job whose handler fails on every attempt is executed exactly
maxRetries times. Between attempts it is visible as pending with retryCount
equal to the number of executions so far (first conjunct), with nextRunAt
pushed forward from the attempt time by retryDelayMs times retryCount and
the attempt error recorded (second conjunct); after the last attempt it is
failed with retryCount equal to maxRetries and the final error recorded
(third to fifth conjuncts), and a failed job is never selected for execution
by a processing tick again (last conjunct). -/
theorem claim_C3_retry_exhaustion (cfg : QueueConfig) (times : Nat → Nat)
    (msg : String) (j : Job) (hs : j.status = JobStatus.pending)
    (hr : j.retryCount = 0) (hm : 1 ≤ j.maxRetries) :
    (∀ k, k < j.maxRetries →
      (jobRun cfg times msg j k).status = JobStatus.pending ∧
      (jobRun cfg times msg j k).retryCount = k) ∧
    (∀ k, 1 ≤ k → k < j.maxRetries →
      (jobRun cfg times msg j k).nextRunAt =
        times (k - 1) + cfg.retryDelayMs * k ∧
      (jobRun cfg times msg j k).error =
        some ("Attempt " ++ toString k ++ " failed: " ++ msg)) ∧
    (jobRun cfg times msg j j.maxRetries).status = JobStatus.failed ∧
    (jobRun cfg times msg j j.maxRetries).retryCount = j.maxRetries ∧
    (jobRun cfg times msg j j.maxRetries).error =
      some ("Max retries exceeded. Final error: " ++ msg) ∧
    (∀ t, jobEligible t (jobRun cfg times msg j j.maxRetries) = false) := by
  have hmid := jobRun_mid cfg times msg j hs hr
  have hlast : jobRun cfg times msg j j.maxRetries =
      failAttempt cfg (times (j.maxRetries - 1)) msg
        (jobRun cfg times msg j (j.maxRetries - 1)) := by
    have : j.maxRetries = (j.maxRetries - 1) + 1 := by omega
    rw [this]
    rfl
  obtain ⟨ps, pr, pm, _⟩ := hmid (j.maxRetries - 1) (by omega)
  have hm1 : j.maxRetries - 1 + 1 = j.maxRetries := by omega
  have hcond : ¬ (j.maxRetries - 1 + 1 < j.maxRetries) := by omega
  refine ⟨?_, ?_, ?_, ?_, ?_, ?_⟩
  · intro k hk
    exact ⟨(hmid k hk).1, (hmid k hk).2.1⟩
  · intro k h1 h2
    exact (hmid k h2).2.2.2 h1
  · rw [hlast]
    simp [failAttempt, pr, pm, hcond]
  · rw [hlast]
    simp [failAttempt, pr, pm, hcond, hm1]
  · rw [hlast]
    simp [failAttempt, pr, pm, hcond]
  · intro t
    rw [hlast]
    simp [jobEligible, failAttempt, pr, pm, hcond]

/-- Concrete instantiation of the C3 theorem: a job with maxRetries 3 whose
handler always fails is pending with one recorded attempt after the first
execution, has its nextRunAt pushed by one retry delay, and is failed with
retryCount 3 and never eligible again after the third execution. -/
theorem claim_C3_retry_exhaustion_witness :
    (jobRun defaultQueueConfig (fun k => k) "boom"
      ⟨1, "t", "", 5, 3, 0, 0, 0, .pending, none, none, none⟩ 1).status =
        JobStatus.pending ∧
    (jobRun defaultQueueConfig (fun k => k) "boom"
      ⟨1, "t", "", 5, 3, 0, 0, 0, .pending, none, none, none⟩ 1).nextRunAt =
        0 + 60000 * 1 ∧
    (jobRun defaultQueueConfig (fun k => k) "boom"
      ⟨1, "t", "", 5, 3, 0, 0, 0, .pending, none, none, none⟩ 3).status =
        JobStatus.failed ∧
    (jobRun defaultQueueConfig (fun k => k) "boom"
      ⟨1, "t", "", 5, 3, 0, 0, 0, .pending, none, none, none⟩ 3).retryCount = 3 ∧
    jobEligible 1000000000 (jobRun defaultQueueConfig (fun k => k) "boom"
      ⟨1, "t", "", 5, 3, 0, 0, 0, .pending, none, none, none⟩ 3) = false := by
  have h := claim_C3_retry_exhaustion defaultQueueConfig (fun k => k) "boom"
    ⟨1, "t", "", 5, 3, 0, 0, 0, .pending, none, none, none⟩ rfl rfl (by decide)
  exact ⟨(h.1 1 (by decide)).1, ((h.2.1 1 (by decide) (by decide)).1),
    h.2.2.1, h.2.2.2.1, h.2.2.2.2.2 1000000000⟩

end JobQueue

namespace JobQueue

/-- C4 counterexample: the claim that an addJob call whose idempotency key
matches a job already in the terminal status completed creates a new job
with a fresh id is false on the code. The idempotency check only excludes
cancelled jobs, so with a completed job carrying key k in the store, addJob
with key k and fresh id 2 returns the completed job id 1 and leaves the
store unchanged: no new job is created. -/
theorem claim_C4_idempotency_counterexample :
    addJob defaultQueueConfig
      [⟨1, "t", "", 5, 3, 0, 0, 0, .completed, none, none, some "k"⟩]
      2 100 "t" "" { idempotencyKey := some "k" } =
      (1, [⟨1, "t", "", 5, 3, 0, 0, 0, .completed, none, none, some "k"⟩]) ∧
    (addJob defaultQueueConfig
      [⟨1, "t", "", 5, 3, 0, 0, 0, .completed, none, none, some "k"⟩]
      2 100 "t" "" { idempotencyKey := some "k" }).2.length = 1 := by
  exact ⟨rfl, rfl⟩

/-- C4 amended: addJob with a truthy idempotency key k deduplicates against
the first job in the store whose key is k and whose status is anything other
than cancelled — pending and running jobs, but also completed and failed
ones — returning that job id and leaving the store unchanged; a new job with
the fresh id is appended exactly when no such job exists, for instance after
the previous holder of the key was cancelled or purged by the retention
sweep. -/
theorem claim_C4_idempotency_amended (cfg : QueueConfig) (jobs : List Job)
    (jobId now : Nat) (ty dat : String) (opts : AddJobOptions) (key : String)
    (hkey : opts.idempotencyKey = some key) (hne : key ≠ "") :
    (∀ existing, jobs.find? (idemMatches key) = some existing →
      addJob cfg jobs jobId now ty dat opts = (existing.id, jobs)) ∧
    (jobs.find? (idemMatches key) = none →
      addJob cfg jobs jobId now ty dat opts =
        (jobId, jobs ++ [mkJob cfg jobId now ty dat opts])) ∧
    (jobs.find? (idemMatches key) = none ↔
      ∀ j ∈ jobs, ¬ (j.idempotencyKey = some key ∧ j.status ≠ JobStatus.cancelled)) := by
  refine ⟨?_, ?_, ?_⟩
  · intro existing hfind
    unfold addJob
    rw [hkey]
    simp only [if_neg hne, hfind]
  · intro hfind
    unfold addJob
    rw [hkey]
    simp only [if_neg hne, hfind]
  · rw [List.find?_eq_none]
    constructor
    · intro h j hj hmatch
      have := h j hj
      simp [idemMatches, hmatch.1, hmatch.2] at this
    · intro h j hj
      simp only [idemMatches, Bool.and_eq_true, decide_eq_true_eq, not_and]
      intro h1 h2
      exact (h j hj) ⟨h1, h2⟩

/-- Concrete instantiation of the amended C4 theorem: a second addJob with
key k while the pending holder of k is in the store returns that job id 1
without growing the store, and addJob with key k on an empty store appends
the new job under the fresh id 7. -/
theorem claim_C4_idempotency_amended_witness :
    addJob defaultQueueConfig
      [⟨1, "t", "", 5, 3, 0, 0, 0, .pending, none, none, some "k"⟩]
      7 100 "t" "" { idempotencyKey := some "k" } =
      (1, [⟨1, "t", "", 5, 3, 0, 0, 0, .pending, none, none, some "k"⟩]) ∧
    addJob defaultQueueConfig [] 7 100 "t" "" { idempotencyKey := some "k" } =
      (7, [mkJob defaultQueueConfig 7 100 "t" "" { idempotencyKey := some "k" }]) := by
  have h1 := claim_C4_idempotency_amended defaultQueueConfig
    [⟨1, "t", "", 5, 3, 0, 0, 0, .pending, none, none, some "k"⟩]
    7 100 "t" "" { idempotencyKey := some "k" } "k" rfl (by decide)
  have h2 := claim_C4_idempotency_amended defaultQueueConfig []
    7 100 "t" "" { idempotencyKey := some "k" } "k" rfl (by decide)
  exact ⟨h1.1 ⟨1, "t", "", 5, 3, 0, 0, 0, .pending, none, none, some "k"⟩ rfl,
    h2.2.1 rfl⟩

/-- C10: addJob silently replaces explicit zero-valued options by the
defaults through the JavaScript falsy-or. A job requested with priority 0 is
created with priority 5 (first conjunct), a job requested with maxRetries 0
is created with the configured default maxRetries (second conjunct), and
under a non-zero configured default, which is 3, no choice of options can
produce a job with maxRetries 0, so a never-retried job cannot be requested
(third conjunct). -/
theorem claim_C10_zero_options_defaulted (cfg : QueueConfig) (jobId now : Nat)
    (ty dat : String) (pr mr dl : Option Nat) (key : Option String) :
    (mkJob cfg jobId now ty dat
      { priority := some 0, maxRetries := mr, delayMs := dl,
        idempotencyKey := key }).priority = 5 ∧
    (mkJob cfg jobId now ty dat
      { priority := pr, maxRetries := some 0, delayMs := dl,
        idempotencyKey := key }).maxRetries = cfg.maxRetries ∧
    (cfg.maxRetries ≠ 0 → ∀ opts : AddJobOptions,
      (mkJob cfg jobId now ty dat opts).maxRetries ≠ 0) := by
  refine ⟨rfl, rfl, ?_⟩
  · intro h opts
    unfold mkJob jsOrNat
    cases hmr : opts.maxRetries with
    | none => exact h
    | some n =>
      by_cases hn : n = 0
      · simp [hn]
        exact h
      · simp [hn]

/-- Concrete instantiation of the C10 theorem: under the default
configuration, explicit priority 0 yields priority 5, explicit maxRetries 0
yields maxRetries 3, and in particular the job created with maxRetries 0
does not have maxRetries 0. -/
theorem claim_C10_zero_options_defaulted_witness :
    (mkJob defaultQueueConfig 1 0 "t" ""
      { priority := some 0, maxRetries := none, delayMs := none,
        idempotencyKey := none }).priority = 5 ∧
    (mkJob defaultQueueConfig 1 0 "t" ""
      { priority := none, maxRetries := some 0, delayMs := none,
        idempotencyKey := none }).maxRetries = defaultQueueConfig.maxRetries ∧
    (mkJob defaultQueueConfig 1 0 "t" ""
      { priority := none, maxRetries := some 0, delayMs := none,
        idempotencyKey := none }).maxRetries ≠ 0 := by
  have h := claim_C10_zero_options_defaulted defaultQueueConfig 1 0 "t" ""
    none none none none
  exact ⟨h.1, h.2.1, h.2.2 (by decide)
    { priority := none, maxRetries := some 0, delayMs := none,
      idempotencyKey := none }⟩

end JobQueue

namespace ConnectionPool

/-- C1: transaction releases the acquired client exactly once on every exit
path (first conjunct, for any combination of failing control statements and
any callback outcome); when the callback throws, a ROLLBACK is issued after
the callback and before the release, and the callback error is rethrown to
the caller (second conjunct); when the callback returns normally and COMMIT
succeeds, the COMMIT precedes the release and the value is returned (third
conjunct); when COMMIT itself throws, the catch still issues ROLLBACK before
the release and the COMMIT error is rethrown (fourth conjunct). -/
theorem claim_C1_transaction_release_rollback {ε α : Type}
    (beginFail commitFail rollbackFail : Option ε) (fn : TxResult ε α)
    (e : ε) (a : α) (hrel : PoolEvent.releaseConn ∉ fn.trace) :
    (transaction beginFail commitFail rollbackFail fn).trace.count
      PoolEvent.releaseConn = 1 ∧
    (beginFail = none → rollbackFail = none → fn.outcome = Except.error e →
      transaction beginFail commitFail rollbackFail fn =
        ⟨PoolEvent.acquireConn :: PoolEvent.beginTx :: fn.trace ++
          [PoolEvent.rollbackTx, PoolEvent.releaseConn], Except.error e⟩) ∧
    (beginFail = none → commitFail = none → fn.outcome = Except.ok a →
      transaction beginFail commitFail rollbackFail fn =
        ⟨PoolEvent.acquireConn :: PoolEvent.beginTx :: fn.trace ++
          [PoolEvent.commitTx, PoolEvent.releaseConn], Except.ok a⟩) ∧
    (beginFail = none → rollbackFail = none → fn.outcome = Except.ok a →
      ∀ ec, commitFail = some ec →
        transaction beginFail commitFail rollbackFail fn =
          ⟨PoolEvent.acquireConn :: PoolEvent.beginTx :: fn.trace ++
            [PoolEvent.commitTx, PoolEvent.rollbackTx, PoolEvent.releaseConn],
            Except.error ec⟩) := by
  obtain ⟨ftr, fout⟩ := fn
  simp only at hrel
  have h0 : ftr.count PoolEvent.releaseConn = 0 :=
    List.count_eq_zero_of_not_mem hrel
  refine ⟨?_, ?_, ?_, ?_⟩
  · rcases beginFail with _ | eb <;> rcases fout with ef | va <;>
      rcases commitFail with _ | ec <;> rcases rollbackFail with _ | er <;>
      simp [transaction, bindTx, tryCatchTx, tryFinallyTx, emitTx, queryTx,
        List.count_append, List.count_cons, h0]
  · rintro rfl rfl hout
    rcases fout with ef | va
    · simp only [Except.error.injEq] at hout
      subst hout
      simp [transaction, bindTx, tryCatchTx, tryFinallyTx, emitTx, queryTx]
    · simp at hout
  · rintro rfl rfl hout
    rcases fout with ef | va
    · simp at hout
    · simp only [Except.ok.injEq] at hout
      subst hout
      simp [transaction, bindTx, tryCatchTx, tryFinallyTx, emitTx, queryTx]
  · rintro rfl rfl hout ec hec
    rcases fout with ef | va
    · simp at hout
    · simp only [Except.ok.injEq] at hout
      subst hout
      subst hec
      simp [transaction, bindTx, tryCatchTx, tryFinallyTx, emitTx, queryTx]

/-- Concrete instantiation of the C1 theorem: a throwing callback leads to
acquire, BEGIN, the callback events, ROLLBACK, release, with the error
rethrown, and a succeeding callback to acquire, BEGIN, callback events,
COMMIT, release with the value returned; both traces release exactly once. -/
theorem claim_C1_transaction_release_rollback_witness :
    transaction (ε := String) (α := Nat) none none none
      ⟨[], Except.error "boom"⟩ =
      ⟨[PoolEvent.acquireConn, PoolEvent.beginTx, PoolEvent.rollbackTx,
        PoolEvent.releaseConn], Except.error "boom"⟩ ∧
    transaction (ε := String) (α := Nat) none none none ⟨[], Except.ok 7⟩ =
      ⟨[PoolEvent.acquireConn, PoolEvent.beginTx, PoolEvent.commitTx,
        PoolEvent.releaseConn], Except.ok 7⟩ ∧
    (transaction (ε := String) (α := Nat) none none none
      ⟨[], Except.error "boom"⟩).trace.count PoolEvent.releaseConn = 1 := by
  have h1 := claim_C1_transaction_release_rollback (ε := String) (α := Nat)
    none none none ⟨[], Except.error "boom"⟩ "boom" 7 (by decide)
  have h2 := claim_C1_transaction_release_rollback (ε := String) (α := Nat)
    none none none ⟨[], Except.ok 7⟩ "boom" 7 (by decide)
  exact ⟨h1.2.1 rfl rfl rfl, h2.2.2.1 rfl rfl rfl, h1.1⟩

/-- C8, spec-modelled acquire: on a pool whose maximum number of leases are
all active with none idle, an acquire during which no lease is released
within the configured acquire timeout fails with the lease-acquire-timeout
error after waiting exactly the configured timeout rather than blocking
indefinitely (first conjunct); every successful acquire on a pool whose
lease count is within the maximum waits at most the configured timeout and
never brings the active lease count above the configured maximum (second
conjunct). -/
theorem claim_C8_acquire_timeout (cfg : PoolSizing) (s : LeaseState)
    (releases : List Nat) (w : Nat) (s' : LeaseState) :
    (s.active = cfg.maxCount → s.idle = 0 →
      (∀ t ∈ releases, cfg.acquireTimeoutMillis < t) →
      acquireLease cfg s releases =
        Except.error (AcquireError.leaseAcquireTimeout, cfg.acquireTimeoutMillis)) ∧
    (acquireLease cfg s releases = Except.ok (w, s') →
      s.active + s.idle ≤ cfg.maxCount →
      s'.active ≤ cfg.maxCount ∧ w ≤ cfg.acquireTimeoutMillis) := by
  constructor
  · intro h1 h2 h3
    unfold acquireLease
    rw [if_neg (by omega), if_neg (by omega)]
    have hfilter : releases.filter (fun t => t ≤ cfg.acquireTimeoutMillis) = [] := by
      rw [List.filter_eq_nil_iff]
      intro t ht
      simp only [decide_eq_true_eq]
      have := h3 t ht
      omega
    rw [hfilter]
    rfl
  · intro hok hcap
    unfold acquireLease at hok
    by_cases hidle : 0 < s.idle
    · rw [if_pos hidle] at hok
      simp only [Except.ok.injEq, Prod.mk.injEq] at hok
      obtain ⟨hw, hs⟩ := hok
      subst hw
      subst hs
      constructor
      · simp only []
        omega
      · omega
    · rw [if_neg hidle] at hok
      by_cases hact : s.active < cfg.maxCount
      · rw [if_pos hact] at hok
        simp only [Except.ok.injEq, Prod.mk.injEq] at hok
        obtain ⟨hw, hs⟩ := hok
        subst hw
        subst hs
        constructor
        · simp only []
          omega
        · omega
      · rw [if_neg hact] at hok
        cases hmin : (releases.filter (fun t => t ≤ cfg.acquireTimeoutMillis)).min? with
        | none =>
          rw [hmin] at hok
          simp at hok
        | some t =>
          rw [hmin] at hok
          simp only [Except.ok.injEq, Prod.mk.injEq] at hok
          obtain ⟨hw, hs⟩ := hok
          subst hw
          subst hs
          have hmem : t ∈ releases.filter (fun t => t ≤ cfg.acquireTimeoutMillis) :=
            List.min?_mem (fun a b => min_choice a b) hmin
          have hle : t ≤ cfg.acquireTimeoutMillis := by
            have := (List.mem_filter.mp hmem).2
            simpa using this
          exact ⟨by omega, hle⟩

/-- Concrete instantiation of the C8 theorem: with the constructor defaults,
max 25 leases and a 10000 millisecond acquire timeout, an acquire on a fully
busy pool whose only release comes after 20000 milliseconds fails with the
lease-acquire-timeout error after 10000 milliseconds, and an acquire on a
pool with one slot free is granted at once without exceeding 25 active
leases. -/
theorem claim_C8_acquire_timeout_witness :
    acquireLease defaultPoolSizing ⟨25, 0⟩ [20000] =
      Except.error (AcquireError.leaseAcquireTimeout, 10000) ∧
    (LeaseState.active ⟨25, 0⟩ ≤ 25 ∧ (0 : Nat) ≤ 10000) := by
  have h1 := claim_C8_acquire_timeout defaultPoolSizing ⟨25, 0⟩ [20000] 0 ⟨25, 0⟩
  have h2 := claim_C8_acquire_timeout defaultPoolSizing ⟨24, 0⟩ [] 0 ⟨25, 0⟩
  exact ⟨h1.1 rfl rfl (by decide), h2.2 rfl (by decide)⟩

end ConnectionPool
